import Mathlib

/-!
Verification development for the Cantera kinetics-manager core and the zeroD
connector/reactor surface layer. C++ sources are shallowly embedded: `double`
values are modelled as exact rationals (`ℚ`), `size_t` as `ℕ`, `std::map` and
`std::vector` as association lists and `List`s, and functions that throw are
modelled with `Except`/`Option`. Bodies that live in translation units not part
of this tree (notably Kinetics.cpp) are modelled from the specification and are
marked as such in their doc comments.
-/

namespace CanteraProof

/-- The out-of-range sentinel `npos = static_cast<size_t>(-1)` used by Cantera. -/
def npos : Nat := 18446744073709551615

/-! ### Phase lookup (Kinetics.h, `phaseIndex` / `m_phaseindex`)

`m_phaseindex` maps a phase name to its position within the kinetics object,
where positions start at 1 (Kinetics.h:1509-1515). `phaseIndex` is inline in
the header (Kinetics.h:207-213). -/

/-- The `m_phaseindex` member: phase name to 1-based position. -/
def PhaseIndexMap : Type := List (String × Nat)

/-- Embedding of `Kinetics::phaseIndex` (Kinetics.h:207-213): return `npos` when
the name is absent from `m_phaseindex`, else the stored position minus one. -/
def phaseIndex (m : PhaseIndexMap) (ph : String) : Nat :=
  match List.lookup ph m with
  | none => npos
  | some v => v - 1

/-! ### Species/phase index (Kinetics.h `kineticsSpeciesIndex`, `m_start`, `m_kk`)

`kineticsSpeciesIndex(k, n) = m_start[n] + k` is inline in the header
(Kinetics.h:274-276). The body of `addThermo` is in Kinetics.cpp, which is not
part of this tree; its effect on `m_start` and `m_kk` is modelled from the
spec. -/

/-- State of the species/phase index: per-phase species counts together with
the `m_start` offsets and the running total `m_kk`. -/
structure SpeciesIndexState where
  counts : List Nat
  m_start : List Nat
  m_kk : Nat

/-- A kinetics manager is constructed empty. -/
def initSpeciesIndex : SpeciesIndexState := ⟨[], [], 0⟩

/-- Modelled from the spec: `addThermo(phase)` appends a phase, extends
`start[]` with the cumulative offset, and updates `kk` (spec sections 3 and 4.1;
the Kinetics.cpp body is not in this tree). `n` is the phase's species count. -/
def addThermo (n : Nat) (s : SpeciesIndexState) : SpeciesIndexState :=
  ⟨s.counts ++ [n], s.m_start ++ [s.m_kk], s.m_kk + n⟩

/-- Run a sequence of `addThermo` calls with the given species counts. -/
def buildPhases (ns : List Nat) : SpeciesIndexState :=
  ns.foldl (fun s n => addThermo n s) initSpeciesIndex

/-- Embedding of `Kinetics::kineticsSpeciesIndex(k, n) = m_start[n] + k`
(Kinetics.h:274-276). -/
def kineticsSpeciesIndex (s : SpeciesIndexState) (k n : Nat) : Nat :=
  s.m_start.getD n 0 + k

/-- Embedding of `Kinetics::nTotalSpecies` (Kinetics.h:252-254). -/
def nTotalSpecies (s : SpeciesIndexState) : Nat := s.m_kk

/-! ### Reactions and stoichiometry matrices

A `Reaction` stores its reactant and product coefficient maps (spec section 3);
coefficients may be fractional, so they are embedded as `ℚ`. Duplicate keys in
a coefficient list are tolerated by summing, per spec section 4.2. -/

/-- A reaction record: species-id to stoichiometric-coefficient maps for the
reactant and the product side. -/
structure Reaction where
  reactants : List (Nat × ℚ)
  products : List (Nat × ℚ)

/-- Total coefficient of species `k` in a coefficient map, summing duplicate
entries (spec section 4.2 requires tolerating duplicate coefficients). -/
def coeffOf (m : List (Nat × ℚ)) (k : Nat) : ℚ :=
  ((m.filter (fun p => p.1 = k)).map (fun p => p.2)).sum

/-- Modelled from the spec: `reactantStoichCoeff(k, i)` reads the reactant
stoichiometry matrix entry for species `k` and reaction `i`; the matrix is
built from the reactions' stored coefficient maps (Kinetics.h:1133 declares it;
the Kinetics.cpp body is not in this tree). -/
def reactantStoichCoeff (rs : List Reaction) (k i : Nat) : ℚ :=
  match rs[i]? with
  | some r => coeffOf r.reactants k
  | none => 0

/-- Modelled from the spec: `productStoichCoeff(k, i)` reads the product
stoichiometry matrix entry for species `k` and reaction `i`
(Kinetics.h:1148 declares it; the Kinetics.cpp body is not in this tree). -/
def productStoichCoeff (rs : List Reaction) (k i : Nat) : ℚ :=
  match rs[i]? with
  | some r => coeffOf r.products k
  | none => 0

/-- Kinetics-manager state for stoichiometry: the reaction list `m_reactions`
and the stored net stoichiometry matrix `m_stoichMatrix`
(Kinetics.h:1473-1474, 1488-1489). The sparse matrix is embedded as a total
function that is zero outside the stored entries. -/
structure KinStoichState where
  m_reactions : List Reaction
  m_stoichMatrix : Nat → Nat → ℚ

/-- A kinetics manager starts with no reactions and an empty net matrix. -/
def initKinStoich : KinStoichState := ⟨[], fun _ _ => 0⟩

/-- Modelled from the spec: `resizeReactions()` re-derives the stored net
stoichiometry matrix as `product − reactant` (spec section 3; Kinetics.h:150
declares it; the Kinetics.cpp body is not in this tree). -/
def resizeReactions (s : KinStoichState) : KinStoichState :=
  { s with m_stoichMatrix := fun k i =>
      productStoichCoeff s.m_reactions k i - reactantStoichCoeff s.m_reactions k i }

/-- Modelled from the spec: `addReaction(r, resize)` appends the reaction and
extends the stoichiometry matrices in lockstep with the new column (spec
sections 3 and 4.6); when `resize` is set, a full `resizeReactions` pass
follows (Kinetics.h:1299 declares it; the Kinetics.cpp body is not in this
tree). -/
def addReaction (r : Reaction) (resize : Bool) (s : KinStoichState) : KinStoichState :=
  let n := s.m_reactions.length
  let s' : KinStoichState :=
    { m_reactions := s.m_reactions ++ [r],
      m_stoichMatrix := fun k i =>
        if i = n then coeffOf r.products k - coeffOf r.reactants k
        else s.m_stoichMatrix k i }
  if resize then resizeReactions s' else s'

/-- A mechanism-construction operation: add a reaction (with or without an
immediate resize pass) or run a resize pass. -/
inductive KinOp where
  | add (r : Reaction) (resize : Bool)
  | resize

/-- Apply one construction operation. -/
def applyKinOp (s : KinStoichState) : KinOp → KinStoichState
  | .add r rz => addReaction r rz s
  | .resize => resizeReactions s

/-- Run a sequence of construction operations from the empty manager. -/
def runKinOps (ops : List KinOp) : KinStoichState :=
  ops.foldl applyKinOp initKinStoich

/-! ### Species production rates

The bodies of `getCreationRates`, `getDestructionRates` and
`getNetProductionRates` (declared at Kinetics.h:543, 552, 562) are in
Kinetics.cpp, which is not in this tree; the spec (sections 2 and 8.3) says the
facade multiplies rate-of-progress vectors by the stoichiometry matrices. -/

/-- Modelled from the spec: species creation rates; the forward direction
creates products, the reverse direction creates reactants. -/
def creationRates (rs : List Reaction) (ropf ropr : Nat → ℚ) (k : Nat) : ℚ :=
  (Finset.range rs.length).sum (fun i =>
    productStoichCoeff rs k i * ropf i + reactantStoichCoeff rs k i * ropr i)

/-- Modelled from the spec: species destruction rates; the forward direction
destroys reactants, the reverse direction destroys products. -/
def destructionRates (rs : List Reaction) (ropf ropr : Nat → ℚ) (k : Nat) : ℚ :=
  (Finset.range rs.length).sum (fun i =>
    reactantStoichCoeff rs k i * ropf i + productStoichCoeff rs k i * ropr i)

/-- Modelled from the spec: species net production rates, obtained by applying
the net stoichiometry matrix (`product − reactant`) to the net
rate-of-progress vector `ropf − ropr`. -/
def netProductionRates (rs : List Reaction) (ropf ropr : Nat → ℚ) (k : Nat) : ℚ :=
  (Finset.range rs.length).sum (fun i =>
    (productStoichCoeff rs k i - reactantStoichCoeff rs k i) * (ropf i - ropr i))

/-! ### Multiplier and value cache (Kinetics.h `setMultiplier`, `invalidateCache`)

`setMultiplier` and `invalidateCache` are inline in the header
(Kinetics.h:1376-1382). The internals of `ValueCache` are not in this tree; per
spec section 3 the cache is a map from computation keys to results and
`clear()` empties it. -/

/-- Multiplier/cache state: the per-reaction multiplier vector `m_perturb`
(Kinetics.h:1486) and the value cache `m_cache` (Kinetics.h:1433), the latter
modelled from the spec as a key/value list. -/
structure PerturbState where
  m_perturb : List ℚ
  m_cache : List (Nat × ℚ)

/-- Embedding of `Kinetics::setMultiplier` (Kinetics.h:1376-1378): the base
class sets `m_perturb[i] = f` and does nothing else. -/
def setMultiplier (i : Nat) (f : ℚ) (s : PerturbState) : PerturbState :=
  { s with m_perturb := s.m_perturb.set i f }

/-- Embedding of `Kinetics::invalidateCache` (Kinetics.h:1380-1382): clears
`m_cache`. -/
def invalidateCache (s : PerturbState) : PerturbState :=
  { s with m_cache := [] }

/-! ### Not-implemented error messages

Throw sites are inline in Kinetics.h. `NotImplementedError` renders the method
name, and, when given, a detail message in which `'{}'` is substituted with
`kineticsType()`. The message is embedded as the data passed at the throw
site: the method name followed by the formatted detail, if any. -/

/-- Message carried by a `NotImplementedError`: the method name, plus the
formatted detail string when the throw site supplies one. -/
def notImplMsg (method : String) (detail : Option String) : String :=
  match detail with
  | none => method
  | some d => method ++ ": " ++ d

/-- Embedding of the `getEquilibriumConstants` throw site (Kinetics.h:379-381):
only the method name is passed, regardless of the manager's type. -/
def getEquilibriumConstantsMsg (_ktype : String) : String :=
  notImplMsg "Kinetics::getEquilibriumConstants" none

/-- Embedding of the `getDeltaGibbs` throw site (Kinetics.h:421-423): only the
method name is passed, regardless of the manager's type. -/
def getDeltaGibbsMsg (_ktype : String) : String :=
  notImplMsg "Kinetics::getDeltaGibbs" none

/-- Embedding of the `getThirdBodyConcentrations` throw site
(Kinetics.h:516-520): the detail names the manager's type. -/
def getThirdBodyConcentrationsMsg (ktype : String) : String :=
  notImplMsg "Kinetics::getThirdBodyConcentrations"
    (some ("Not applicable/implemented for Kinetics object of type '" ++ ktype ++ "'"))

/-- Embedding of the `getDerivativeSettings` throw site (Kinetics.h:690-694):
the detail names the manager's type. -/
def getDerivativeSettingsMsg (ktype : String) : String :=
  notImplMsg "Kinetics::getDerivativeSettings"
    (some ("Not implemented for kinetics type '" ++ ktype ++ "'."))

/-- Test whether `p` is an initial segment of `s`. -/
def leadsWith : List Char → List Char → Bool
  | [], _ => true
  | _ :: _, [] => false
  | a :: as, b :: bs => a = b && leadsWith as bs

/-- Test whether `p` occurs contiguously inside `s`. -/
def occursIn (p : List Char) (s : List Char) : Bool :=
  match s with
  | [] => p.isEmpty
  | _ :: rest => leadsWith p s || occursIn p rest

/-- A message includes a type name when the name occurs in the message text. -/
def includesTypeName (msg t : String) : Bool :=
  occursIn t.data msg.data

/-! ### Index and array-size checks (Kinetics.h:157-196, 227-229)

The bodies of `checkReactionIndex`, `checkSpeciesIndex`, `checkPhaseIndex` and
the array-size checks are in Kinetics.cpp, which is not in this tree; they are
modelled from the spec (sections 4.1 and 7: out-of-bounds indices raise the
index-out-of-range condition, checked sizes fail fast when too small). The
`phase` accessor is inline in the header. -/

/-- Modelled from the spec: `checkReactionIndex(i)` raises index-out-of-range
unless `i < nReactions()`. -/
def checkReactionIndex (nR i : Nat) : Except String Unit :=
  if i < nR then .ok () else .error "IndexError: reaction index out of range"

/-- Modelled from the spec: `checkSpeciesIndex(k)` raises index-out-of-range
unless `k < nTotalSpecies()`. -/
def checkSpeciesIndex (kk k : Nat) : Except String Unit :=
  if k < kk then .ok () else .error "IndexError: species index out of range"

/-- Modelled from the spec: `checkPhaseIndex(m)` raises index-out-of-range
unless `m < nPhases()`. -/
def checkPhaseIndex (nP m : Nat) : Except String Unit :=
  if m < nP then .ok () else .error "IndexError: phase index out of range"

/-- Modelled from the spec: `checkReactionArraySize(ii)` raises
index-out-of-range when the buffer size `ii` is less than `nReactions()`. -/
def checkReactionArraySize (nR ii : Nat) : Except String Unit :=
  if nR ≤ ii then .ok () else .error "ArraySizeError: reaction array too small"

/-- Modelled from the spec: `checkSpeciesArraySize(kk)` raises
index-out-of-range when the buffer size is less than `nTotalSpecies()`. -/
def checkSpeciesArraySize (kk mm : Nat) : Except String Unit :=
  if kk ≤ mm then .ok () else .error "ArraySizeError: species array too small"

/-- Modelled from the spec: `checkPhaseArraySize(mm)` raises
index-out-of-range when the buffer size is less than `nPhases()`. -/
def checkPhaseArraySize (nP mm : Nat) : Except String Unit :=
  if nP ≤ mm then .ok () else .error "ArraySizeError: phase array too small"

/-- Embedding of `Kinetics::phase(n)` (Kinetics.h:227-229): an unchecked
`m_thermo[n]` vector subscript, with no throwing code path. An out-of-bounds
subscript (undefined behavior in C++) is embedded as `none`. Phases are
identified by name. -/
def phaseAt (m_thermo : List String) (n : Nat) : Option String :=
  m_thermo[n]?

/-! ### Duplicate-stoichiometry check

`checkDuplicateStoich` is declared at Kinetics.h:1440-1451; its body is in
Kinetics.cpp, which is not in this tree. Modelled from the spec (section 4.4):
two reactions are duplicates iff one signed-key coefficient map is a positive
scalar multiple of the other across the full key set; the function returns the
scalar ratio if duplicate, else zero. -/

/-- The key set of a signed-key stoichiometry map. -/
def keysOf (r : List (Int × ℚ)) : List Int := r.map (fun p => p.1)

/-- Coefficient of key `k` in a stoichiometry map, zero when absent. -/
def lookup0 (r : List (Int × ℚ)) (k : Int) : ℚ :=
  match List.lookup k r with
  | some v => v
  | none => 0

/-- Modelled from the spec: `checkDuplicateStoich(r1, r2)` computes the
candidate scalar from `r1`'s first entry and returns it when `r2` equals that
positive scalar multiple of `r1` across the full key set, and zero
otherwise. -/
def checkDuplicateStoich (r1 r2 : List (Int × ℚ)) : ℚ :=
  match r1 with
  | [] => 0
  | (k0, v0) :: _ =>
    let c := lookup0 r2 k0 / v0
    if 0 < c ∧ (∀ p ∈ r1, p.1 ∈ keysOf r2) ∧ (∀ p ∈ r2, p.1 ∈ keysOf r1) ∧
        (∀ p ∈ r1, lookup0 r2 p.1 = c * p.2)
    then c else 0

/-- The spec-side duplicate predicate: `r2` is the positive scalar multiple of
`r1` by factor `c` over the full (shared) key set. -/
def IsPosMultiple (r1 r2 : List (Int × ℚ)) (c : ℚ) : Prop :=
  0 < c ∧ (∀ p ∈ r1, p.1 ∈ keysOf r2) ∧ (∀ p ∈ r2, p.1 ∈ keysOf r1) ∧
    (∀ k : Int, k ∈ keysOf r1 → lookup0 r2 k = c * lookup0 r1 k)

/-! ### ReactorBase surfaces (ReactorBase.cpp:101-107)

`addSurface` appends a surface pointer only when it is not already present,
and then points the surface back at this reactor. Pointers are embedded as
numeric identities; the surface-to-reactor back-pointers are a map. -/

/-- Surface bookkeeping of a reactor: the `m_surfaces` pointer list and the
`ReactorSurface::setReactor` back-pointers of all surfaces. -/
structure SurfaceState where
  m_surfaces : List Nat
  reactorOf : Nat → Option Nat

/-- Embedding of `ReactorBase::addSurface` (ReactorBase.cpp:101-107): if the
surface is not yet in `m_surfaces`, append it and set its reactor to this
reactor; otherwise do nothing. `this` identifies the reactor. -/
def addSurface (this : Nat) (surf : Nat) (s : SurfaceState) : SurfaceState :=
  if surf ∈ s.m_surfaces then s
  else
    { m_surfaces := s.m_surfaces ++ [surf],
      reactorOf := fun p => if p = surf then some this else s.reactorOf p }

/-! ### Connector factory (ConnectorFactory.cpp)

The factory constructor registers `MassFlowController`, `PressureController`,
`Valve` (flow devices) and `Wall` (a wall) (ConnectorFactory.cpp:17-31). The
generic `Factory::create` dispatch lives outside this tree; per spec section 9
it is a construction registry keyed by the model name, so creation succeeds
exactly for registered names. `newFlowDevice` and `newWall` downcast the
created connector and throw a `CanteraError` when the cast fails
(ConnectorFactory.cpp:55-64, 73-82). -/

/-- The concrete connector classes registered with `ConnectorFactory`. -/
inductive ConnectorObj where
  | massFlowController
  | pressureController
  | valve
  | wallObj
deriving DecidableEq

/-- Whether the concrete object derives from `FlowDevice`. -/
def isFlowDevice : ConnectorObj → Bool
  | .massFlowController => true
  | .pressureController => true
  | .valve => true
  | .wallObj => false

/-- Whether the concrete object derives from `WallBase`. -/
def isWallBase : ConnectorObj → Bool
  | .wallObj => true
  | _ => false

/-- The registry built by the `ConnectorFactory` constructor
(ConnectorFactory.cpp:17-31); `Factory::create` dispatch for unregistered
names is modelled from the spec as a failed creation. -/
def createConnector (model : String) : Option ConnectorObj :=
  if model = "MassFlowController" then some .massFlowController
  else if model = "PressureController" then some .pressureController
  else if model = "Valve" then some .valve
  else if model = "Wall" then some .wallObj
  else none

/-- A `CanteraError`: the reporting procedure and its message. -/
structure CtErr where
  proc : String
  msg : String
deriving DecidableEq

/-- Embedding of `newFlowDevice(model, name)` (ConnectorFactory.cpp:55-64):
create the connector, then downcast to `FlowDevice`; when the cast fails,
throw a `CanteraError` naming the incompatible model. -/
def newFlowDevice (model : String) (_name : String) : Except CtErr ConnectorObj :=
  match createConnector model with
  | none => .error ⟨"ConnectorFactory::create", "Unknown Connector model " ++ model⟩
  | some c =>
    if isFlowDevice c then .ok c
    else .error ⟨"newFlowDevice", "Detected incompatible Connector type '" ++ model ++ "'"⟩

/-- Embedding of `newWall(model, name)` (ConnectorFactory.cpp:73-82): create
the connector, then downcast to `WallBase`; when the cast fails, throw a
`CanteraError` naming the incompatible model. -/
def newWall (model : String) (_name : String) : Except CtErr ConnectorObj :=
  match createConnector model with
  | none => .error ⟨"ConnectorFactory::create", "Unknown Connector model " ++ model⟩
  | some c =>
    if isWallBase c then .ok c
    else .error ⟨"newWall", "Detected incompatible Connector type '" ++ model ++ "'"⟩

end CanteraProof

namespace CanteraProof

/-- Helper: `m_start` of a built phase list is the list of partial sums. -/
theorem buildPhases_fields (ns : List Nat) :
    (buildPhases ns).counts = ns ∧
    (buildPhases ns).m_kk = ns.sum ∧
    (buildPhases ns).m_start = (List.range ns.length).map (fun j => (ns.take j).sum) := by
  induction ns using List.reverseRecOn with
  | nil => simp [buildPhases, initSpeciesIndex]
  | append_singleton ns m ih =>
    obtain ⟨hc, hk, hs⟩ := ih
    have hfold : buildPhases (ns ++ [m]) = addThermo m (buildPhases ns) := by
      simp [buildPhases, List.foldl_append]
    refine ⟨?_, ?_, ?_⟩
    · simp [hfold, addThermo, hc]
    · simp [hfold, addThermo, hk]
    · simp only [hfold, addThermo, hs, hk]
      rw [List.length_append, List.length_singleton, List.range_succ, List.map_append]
      congr 1
      · apply List.map_congr_left
        intro j hj
        rw [List.mem_range] at hj
        rw [List.take_append_of_le_length (Nat.le_of_lt hj)]
      · simp

/-- C3: for any sequence of `addThermo` calls with species counts `ns`, species
`k` of phase `n` has global index `(sum of the counts of the phases before n) +
k`, and `nTotalSpecies()` is the sum of all counts. -/
theorem kineticsSpeciesIndex_contiguous (ns : List Nat) :
    (∀ n k, n < ns.length →
      kineticsSpeciesIndex (buildPhases ns) k n = (ns.take n).sum + k) ∧
    nTotalSpecies (buildPhases ns) = ns.sum := by
  obtain ⟨_, hk, hs⟩ := buildPhases_fields ns
  refine ⟨?_, hk⟩
  intro n k hn
  unfold kineticsSpeciesIndex
  rw [hs, List.getD_eq_getElem?_getD, List.getElem?_map, List.getElem?_range hn]
  rfl

/-- C3 witness: with phases of 12, 26 and 3 species (the example from the
Kinetics.h documentation), species 4 of phase 1 has global index 16 and the
total is 41. -/
theorem kineticsSpeciesIndex_contiguous_witness :
    kineticsSpeciesIndex (buildPhases [12, 26, 3]) 4 1 = 16 ∧
    nTotalSpecies (buildPhases [12, 26, 3]) = 41 := by
  have h := kineticsSpeciesIndex_contiguous [12, 26, 3]
  constructor
  · rw [h.1 1 4 (by decide)]; rfl
  · rw [h.2]; rfl

/-- C8: `phaseIndex(ph)` returns the sentinel `npos` when `ph` is not in
`m_phaseindex`, and otherwise the stored (1-based) position minus one; the
embedding is a total function, so no exception is possible. -/
theorem phaseIndex_spec (m : PhaseIndexMap) (ph : String) :
    (List.lookup ph m = none → phaseIndex m ph = npos) ∧
    (∀ v, List.lookup ph m = some v → phaseIndex m ph = v - 1) := by
  constructor
  · intro h; unfold phaseIndex; rw [h]
  · intro v h; unfold phaseIndex; rw [h]

/-- C8 witness: a registered phase maps to its stored position minus one, and
an unregistered name maps to `npos`. -/
theorem phaseIndex_spec_witness :
    phaseIndex [("gas", 1), ("surf", 2)] "surf" = 1 ∧
    phaseIndex [("gas", 1), ("surf", 2)] "water" = npos := by
  constructor
  · exact (phaseIndex_spec [("gas", 1), ("surf", 2)] "surf").2 2 (by decide)
  · exact (phaseIndex_spec [("gas", 1), ("surf", 2)] "water").1 (by decide)

/-- C4 counterexample: the base-class `setMultiplier` (Kinetics.h:1376-1378)
only writes `m_perturb[i] = f`; on a state whose cache holds an entry, the
cache still holds that entry afterwards, so the call does not invalidate the
value cache. -/
theorem setMultiplier_cache_cex :
    (setMultiplier 0 0 ⟨[1], [(0, 5)]⟩).m_cache ≠ ([] : List (Nat × ℚ)) := by
  simp [setMultiplier]

/-- C4 amended: `setMultiplier(i, f)` sets `m_perturb[i] = f` and leaves the
value cache unchanged; invalidating the cache is a separate operation,
`invalidateCache()`, which clears it. -/
theorem setMultiplier_perturb_invalidateCache (s : PerturbState) (i : Nat) (f : ℚ) :
    (setMultiplier i f s).m_perturb = s.m_perturb.set i f ∧
    (setMultiplier i f s).m_cache = s.m_cache ∧
    (invalidateCache s).m_cache = [] :=
  ⟨rfl, rfl, rfl⟩

/-- C2: for every reaction set and every pair of forward/reverse
rate-of-progress vectors, the net production rate of each species equals its
creation rate minus its destruction rate, exactly. -/
theorem netProductionRates_decomposition (rs : List Reaction)
    (ropf ropr : Nat → ℚ) (k : Nat) :
    netProductionRates rs ropf ropr k =
      creationRates rs ropf ropr k - destructionRates rs ropf ropr k := by
  unfold netProductionRates creationRates destructionRates
  rw [← Finset.sum_sub_distrib]
  refine Finset.sum_congr rfl ?_
  intro i _
  ring

/-- One construction step keeps the stored net matrix equal to
`product − reactant`. -/
theorem applyKinOp_preserves_net (s : KinStoichState) (op : KinOp)
    (h : ∀ k i, s.m_stoichMatrix k i =
      productStoichCoeff s.m_reactions k i - reactantStoichCoeff s.m_reactions k i) :
    ∀ k i, (applyKinOp s op).m_stoichMatrix k i =
      productStoichCoeff (applyKinOp s op).m_reactions k i -
      reactantStoichCoeff (applyKinOp s op).m_reactions k i := by
  have hresize : ∀ t : KinStoichState, ∀ k i,
      (resizeReactions t).m_stoichMatrix k i =
        productStoichCoeff (resizeReactions t).m_reactions k i -
        reactantStoichCoeff (resizeReactions t).m_reactions k i := by
    intro t k i; rfl
  cases op with
  | resize => exact hresize s
  | add r rz =>
    cases rz with
    | true => exact hresize _
    | false =>
      intro k i
      have hrs : (applyKinOp s (.add r false)).m_reactions = s.m_reactions ++ [r] := rfl
      have hsm : (applyKinOp s (.add r false)).m_stoichMatrix k i =
          if i = s.m_reactions.length then coeffOf r.products k - coeffOf r.reactants k
          else s.m_stoichMatrix k i := rfl
      rw [hrs, hsm]
      by_cases hi : i = s.m_reactions.length
      · subst hi
        rw [if_pos rfl]
        unfold productStoichCoeff reactantStoichCoeff
        rw [List.getElem?_concat_length]
      · rw [if_neg hi, h k i]
        unfold productStoichCoeff reactantStoichCoeff
        rcases Nat.lt_or_ge i s.m_reactions.length with hlt | hge
        · rw [List.getElem?_append_left hlt]
        · have h1 : s.m_reactions[i]? = none := List.getElem?_eq_none hge
          have h2 : (s.m_reactions ++ [r])[i]? = none := by
            refine List.getElem?_eq_none ?_
            rw [List.length_append, List.length_singleton]
            exact Nat.succ_le_of_lt (Nat.lt_of_le_of_ne hge (fun e => hi e.symm))
          rw [h1, h2]

/-- C1: after every sequence of `addReaction`/`resizeReactions` operations
starting from the empty manager, the stored net stoichiometry matrix entry for
species `k` and reaction `i` equals `productStoichCoeff(k, i) −
reactantStoichCoeff(k, i)`; the net matrix never drifts from
`product − reactant`. -/
theorem stoichMatrix_net_identity (ops : List KinOp) :
    ∀ k i, (runKinOps ops).m_stoichMatrix k i =
      productStoichCoeff (runKinOps ops).m_reactions k i -
      reactantStoichCoeff (runKinOps ops).m_reactions k i := by
  suffices h : ∀ s : KinStoichState,
      (∀ k i, s.m_stoichMatrix k i =
        productStoichCoeff s.m_reactions k i - reactantStoichCoeff s.m_reactions k i) →
      ∀ k i, (ops.foldl applyKinOp s).m_stoichMatrix k i =
        productStoichCoeff (ops.foldl applyKinOp s).m_reactions k i -
        reactantStoichCoeff (ops.foldl applyKinOp s).m_reactions k i by
    refine h initKinStoich ?_
    intro k i
    simp [initKinStoich, productStoichCoeff, reactantStoichCoeff]
  induction ops with
  | nil => intro s hs; exact hs
  | cons op rest ih =>
    intro s hs
    exact ih (applyKinOp s op) (applyKinOp_preserves_net s op hs)

/-- A pattern is an occurrence of itself at the front of any extension. -/
theorem leadsWith_self_append (p b : List Char) : leadsWith p (p ++ b) = true := by
  induction p with
  | nil => rfl
  | cons a as ih => simp [leadsWith, ih]

/-- The empty pattern occurs in every text. -/
theorem occursIn_nil_pat (s : List Char) : occursIn [] s = true := by
  cases s with
  | nil => rfl
  | cons a rest => simp [occursIn, leadsWith]

/-- A pattern occurs in itself followed by anything. -/
theorem occursIn_self_append (p b : List Char) : occursIn p (p ++ b) = true := by
  cases p with
  | nil => exact occursIn_nil_pat b
  | cons a as =>
    show occursIn (a :: as) (a :: (as ++ b)) = true
    simp only [occursIn]
    rw [show a :: (as ++ b) = (a :: as) ++ b from rfl, leadsWith_self_append]
    rfl

/-- Occurrence is stable under prepending text. -/
theorem occursIn_append_of_occursIn (p a s : List Char) (h : occursIn p s = true) :
    occursIn p (a ++ s) = true := by
  induction a with
  | nil => exact h
  | cons x xs ih =>
    show occursIn p (x :: (xs ++ s)) = true
    simp only [occursIn, ih, Bool.or_true]

/-- Inclusion of a type name is stable under prepending message text. -/
theorem includesTypeName_append (x y t : String) (h : includesTypeName y t = true) :
    includesTypeName (x ++ y) t = true := by
  unfold includesTypeName at *
  exact occursIn_append_of_occursIn _ _ _ h

/-- A message starting with the type name includes it. -/
theorem includesTypeName_left (t y : String) : includesTypeName (t ++ y) t = true := by
  unfold includesTypeName
  exact occursIn_self_append _ _

/-- C5 counterexample: for a manager of concrete type `BulkKinetics`, the
not-implemented error raised by `getEquilibriumConstants` (Kinetics.h:379-381)
does not include the type name — only the method name is passed at that throw
site. -/
theorem getEquilibriumConstants_msg_cex :
    includesTypeName (getEquilibriumConstantsMsg "BulkKinetics") "BulkKinetics" = false := by
  decide

/-- C5 amended: not-implemented errors raised by the third-body accessors and
the derivative-settings operations include the manager's concrete type name in
their message, but `getEquilibriumConstants` and `getDeltaGibbs` (and the
other delta-property methods) raise messages naming only the operation,
independent of the manager's type. -/
theorem notImplemented_messages (ktype : String) :
    includesTypeName (getThirdBodyConcentrationsMsg ktype) ktype = true ∧
    includesTypeName (getDerivativeSettingsMsg ktype) ktype = true ∧
    getEquilibriumConstantsMsg ktype = "Kinetics::getEquilibriumConstants" ∧
    getDeltaGibbsMsg ktype = "Kinetics::getDeltaGibbs" := by
  refine ⟨?_, ?_, rfl, rfl⟩
  · unfold getThirdBodyConcentrationsMsg notImplMsg
    rw [String.append_assoc]
    refine includesTypeName_append _ _ _ ?_
    refine includesTypeName_append _ _ _ ?_
    exact includesTypeName_left _ _
  · unfold getDerivativeSettingsMsg notImplMsg
    rw [String.append_assoc]
    refine includesTypeName_append _ _ _ ?_
    refine includesTypeName_append _ _ _ ?_
    exact includesTypeName_left _ _

/-- C6 counterexample: `phase(n)` (Kinetics.h:227-229) is an unchecked
`m_thermo[n]` subscript; with one phase registered, `phase(1)` — the index one
past `nPhases()` — reads out of bounds (embedded as `none`) and raises no
index-out-of-range error. -/
theorem phaseAt_unchecked_cex : phaseAt ["gas"] 1 = none := rfl

/-- C6 amended: the checked entry points `checkReactionIndex`,
`checkSpeciesIndex` and `checkPhaseIndex` raise index-out-of-range at the index
one past the valid count, and the checked array-size operations never raise for
properly sized buffers; but accessors that bypass the checks, such as
`phase(n)`, perform unchecked access and raise nothing. -/
theorem index_checks_spec (nR kk nP : Nat) :
    (checkReactionIndex nR nR).isOk = false ∧
    (checkSpeciesIndex kk kk).isOk = false ∧
    (checkPhaseIndex nP nP).isOk = false ∧
    (∀ i, i < nR → (checkReactionIndex nR i).isOk = true) ∧
    (∀ ii, nR ≤ ii → (checkReactionArraySize nR ii).isOk = true) ∧
    (∀ mm, kk ≤ mm → (checkSpeciesArraySize kk mm).isOk = true) ∧
    (∀ mm, nP ≤ mm → (checkPhaseArraySize nP mm).isOk = true) ∧
    (∀ thermos : List String, thermos.length = nP → phaseAt thermos nP = none) := by
  refine ⟨?_, ?_, ?_, ?_, ?_, ?_, ?_, ?_⟩
  · unfold checkReactionIndex; rw [if_neg (lt_irrefl nR)]; rfl
  · unfold checkSpeciesIndex; rw [if_neg (lt_irrefl kk)]; rfl
  · unfold checkPhaseIndex; rw [if_neg (lt_irrefl nP)]; rfl
  · intro i h; unfold checkReactionIndex; rw [if_pos h]; rfl
  · intro ii h; unfold checkReactionArraySize; rw [if_pos h]; rfl
  · intro mm h; unfold checkSpeciesArraySize; rw [if_pos h]; rfl
  · intro mm h; unfold checkPhaseArraySize; rw [if_pos h]; rfl
  · intro thermos h
    unfold phaseAt
    exact List.getElem?_eq_none (le_of_eq h)

/-- C6 witness: with two reactions, two species and two phases, index 2 fails
each check, a size-3 buffer passes each array-size check, and `phase(2)` on a
two-phase manager is an unchecked out-of-bounds read. -/
theorem index_checks_spec_witness :
    (checkReactionIndex 2 2).isOk = false ∧
    (checkReactionArraySize 2 3).isOk = true ∧
    phaseAt ["gas", "surf"] 2 = none := by
  have h := index_checks_spec 2 2 2
  exact ⟨h.1, h.2.2.2.2.1 3 (by decide), h.2.2.2.2.2.2.2 ["gas", "surf"] (by decide)⟩

/-- C9: `ReactorBase::addSurface` leaves `m_surfaces` (and the whole state)
unchanged when the surface is already present, and any sequence of `addSurface`
calls keeps the surface list duplicate-free, so each distinct surface appears
at most once. -/
theorem addSurface_spec (rid surf : Nat) (s : SurfaceState) :
    (surf ∈ s.m_surfaces → addSurface rid surf s = s) ∧
    (s.m_surfaces.Nodup → ∀ adds : List Nat,
      ((adds.foldl (fun st p => addSurface rid p st) s).m_surfaces).Nodup) := by
  constructor
  · intro h
    unfold addSurface
    rw [if_pos h]
  · intro hnd adds
    induction adds generalizing s with
    | nil => exact hnd
    | cons p rest ih =>
      refine ih (addSurface rid p s) ?_
      unfold addSurface
      by_cases hp : p ∈ s.m_surfaces
      · rw [if_pos hp]; exact hnd
      · rw [if_neg hp]
        simp [List.nodup_append, hnd, hp]

/-- C9 witness: re-adding surface 5 to a reactor that already lists it is a
no-op, and adding surfaces 7, 5, 7 in sequence still yields a duplicate-free
list. -/
theorem addSurface_spec_witness :
    addSurface 0 5 ⟨[5], fun _ => none⟩ = ⟨[5], fun _ => none⟩ ∧
    (([7, 5, 7].foldl (fun st p => addSurface 0 p st)
      ⟨[5], fun _ => none⟩).m_surfaces).Nodup := by
  have h := addSurface_spec 0 5 ⟨[5], fun _ => none⟩
  exact ⟨h.1 (by decide), h.2 (by decide) [7, 5, 7]⟩

/-- C10: whenever the connector created for a model is not a `FlowDevice`,
`newFlowDevice` raises a `CanteraError` whose message names the incompatible
model, and symmetrically for `newWall` with `WallBase`; on success each returns
an object of the requested kind. -/
theorem newFlowDevice_newWall_spec (model name : String) :
    (∀ c, createConnector model = some c → isFlowDevice c = false →
      ∃ e, newFlowDevice model name = .error e ∧ e.proc = "newFlowDevice" ∧
        includesTypeName e.msg model = true) ∧
    (∀ c, newFlowDevice model name = .ok c → isFlowDevice c = true) ∧
    (∀ c, createConnector model = some c → isWallBase c = false →
      ∃ e, newWall model name = .error e ∧ e.proc = "newWall" ∧
        includesTypeName e.msg model = true) ∧
    (∀ c, newWall model name = .ok c → isWallBase c = true) := by
  have hmsg : includesTypeName
      ("Detected incompatible Connector type '" ++ model ++ "'") model = true := by
    rw [String.append_assoc]
    exact includesTypeName_append _ _ _ (includesTypeName_left _ _)
  refine ⟨?_, ?_, ?_, ?_⟩
  · intro c hc hflow
    refine ⟨⟨"newFlowDevice", "Detected incompatible Connector type '" ++ model ++ "'"⟩,
      ?_, rfl, hmsg⟩
    unfold newFlowDevice
    rw [hc]
    simp [hflow]
  · intro c hok
    unfold newFlowDevice at hok
    cases hcr : createConnector model with
    | none => rw [hcr] at hok; exact absurd hok (by simp)
    | some c' =>
      rw [hcr] at hok
      cases hf : isFlowDevice c' with
      | false => simp [hf] at hok
      | true =>
        simp [hf] at hok
        exact hok ▸ hf
  · intro c hc hwall
    refine ⟨⟨"newWall", "Detected incompatible Connector type '" ++ model ++ "'"⟩,
      ?_, rfl, hmsg⟩
    unfold newWall
    rw [hc]
    simp [hwall]
  · intro c hok
    unfold newWall at hok
    cases hcr : createConnector model with
    | none => rw [hcr] at hok; exact absurd hok (by simp)
    | some c' =>
      rw [hcr] at hok
      cases hf : isWallBase c' with
      | false => simp [hf] at hok
      | true =>
        simp [hf] at hok
        exact hok ▸ hf

/-- C10 witness: `newFlowDevice("Wall", "w")` raises a `CanteraError` from
`newFlowDevice` whose message names the model `Wall`. -/
theorem newFlowDevice_newWall_spec_witness :
    ∃ e, newFlowDevice "Wall" "w" = .error e ∧ e.proc = "newFlowDevice" ∧
      includesTypeName e.msg "Wall" = true :=
  (newFlowDevice_newWall_spec "Wall" "w").1 .wallObj (by decide) (by decide)

/-- Looking up the head key of a stoichiometry map yields the head value. -/
theorem lookup0_cons_self (k0 : Int) (v0 : ℚ) (t : List (Int × ℚ)) :
    lookup0 ((k0, v0) :: t) k0 = v0 := by
  simp [lookup0, List.lookup]

/-- A key outside the key set has coefficient zero. -/
theorem lookup0_eq_zero_of_not_mem (r : List (Int × ℚ)) (k : Int)
    (h : k ∉ keysOf r) : lookup0 r k = 0 := by
  induction r with
  | nil => rfl
  | cons p t ih =>
    obtain ⟨a, b⟩ := p
    simp only [keysOf, List.map_cons, List.mem_cons, not_or] at h
    obtain ⟨hka, hkt⟩ := h
    have hak : (k == a) = false := by
      rw [beq_eq_false_iff_ne]
      exact hka
    have ht : lookup0 t k = 0 := ih (by simpa [keysOf] using hkt)
    unfold lookup0 at ht ⊢
    simp only [List.lookup, hak]
    exact ht

/-- A nonzero looked-up coefficient comes from an actual entry of the map. -/
theorem mem_of_lookup0_ne_zero (r : List (Int × ℚ)) (k : Int)
    (h : lookup0 r k ≠ 0) : (k, lookup0 r k) ∈ r := by
  induction r with
  | nil => exact absurd rfl h
  | cons p t ih =>
    obtain ⟨a, b⟩ := p
    cases hak : (k == a) with
    | true =>
      have he : k = a := eq_of_beq hak
      subst he
      rw [lookup0_cons_self]
      exact List.mem_cons_self _ _
    | false =>
      have hl : lookup0 ((a, b) :: t) k = lookup0 t k := by
        unfold lookup0
        simp only [List.lookup, hak]
      rw [hl] at h ⊢
      exact List.mem_cons_of_mem _ (ih h)

/-- With duplicate-free keys, membership determines the looked-up value. -/
theorem lookup0_of_mem_nodup (r : List (Int × ℚ)) (k : Int) (v : ℚ)
    (hnd : (keysOf r).Nodup) (hm : (k, v) ∈ r) : lookup0 r k = v := by
  induction r with
  | nil => cases hm
  | cons p t ih =>
    obtain ⟨a, b⟩ := p
    simp only [keysOf, List.map_cons, List.nodup_cons] at hnd
    obtain ⟨hna, hnt⟩ := hnd
    rcases List.mem_cons.mp hm with he | ht
    · rw [Prod.mk.injEq] at he
      obtain ⟨he1, he2⟩ := he
      subst he1; subst he2
      exact lookup0_cons_self k v t
    · have hk : k ∈ keysOf t := by
        unfold keysOf
        exact List.mem_map.mpr ⟨(k, v), ht, rfl⟩
      have hak : (k == a) = false := by
        rw [beq_eq_false_iff_ne]
        intro e
        subst e
        exact hna (by simpa [keysOf] using hk)
      have hl : lookup0 ((a, b) :: t) k = lookup0 t k := by
        unfold lookup0
        simp only [List.lookup, hak]
      rw [hl]
      exact ih (by simpa [keysOf] using hnt) ht

/-- Unfolding of `checkDuplicateStoich` on a nonempty first map. -/
theorem checkDuplicateStoich_cons (k0 : Int) (v0 : ℚ) (t r2 : List (Int × ℚ)) :
    checkDuplicateStoich ((k0, v0) :: t) r2 =
      if 0 < lookup0 r2 k0 / v0 ∧ (∀ p ∈ (k0, v0) :: t, p.1 ∈ keysOf r2) ∧
          (∀ p ∈ r2, p.1 ∈ keysOf ((k0, v0) :: t)) ∧
          (∀ p ∈ (k0, v0) :: t, lookup0 r2 p.1 = lookup0 r2 k0 / v0 * p.2)
      then lookup0 r2 k0 / v0 else 0 := rfl

/-- What a nonzero `checkDuplicateStoich` result entails. -/
theorem checkDuplicateStoich_ne_zero (r1 r2 : List (Int × ℚ))
    (h : checkDuplicateStoich r1 r2 ≠ 0) :
    ∃ k0 v0 t, r1 = (k0, v0) :: t ∧
      checkDuplicateStoich r1 r2 = lookup0 r2 k0 / v0 ∧
      0 < lookup0 r2 k0 / v0 ∧
      (∀ p ∈ r1, p.1 ∈ keysOf r2) ∧ (∀ p ∈ r2, p.1 ∈ keysOf r1) ∧
      (∀ p ∈ r1, lookup0 r2 p.1 = lookup0 r2 k0 / v0 * p.2) := by
  cases r1 with
  | nil => exact absurd rfl h
  | cons p t =>
    obtain ⟨k0, v0⟩ := p
    by_cases hcond : 0 < lookup0 r2 k0 / v0 ∧ (∀ q ∈ (k0, v0) :: t, q.1 ∈ keysOf r2) ∧
        (∀ q ∈ r2, q.1 ∈ keysOf ((k0, v0) :: t)) ∧
        (∀ q ∈ (k0, v0) :: t, lookup0 r2 q.1 = lookup0 r2 k0 / v0 * q.2)
    · exact ⟨k0, v0, t, rfl, by rw [checkDuplicateStoich_cons, if_pos hcond],
        hcond.1, hcond.2.1, hcond.2.2.1, hcond.2.2.2⟩
    · rw [checkDuplicateStoich_cons, if_neg hcond] at h
      exact absurd rfl h

/-- C7: for stoichiometry maps with duplicate-free keys and positive
coefficients, `checkDuplicateStoich(r1, r2)` is nonzero exactly when `r2` is a
positive scalar multiple of `r1` over the full key set, in which case it is
that scalar; whenever both orders detect a duplicate the two results are
reciprocal; and two reactions sharing no species give zero. -/
theorem checkDuplicateStoich_spec (r1 r2 : List (Int × ℚ))
    (hne : r1 ≠ []) (hn1 : (keysOf r1).Nodup) (hpos1 : ∀ p ∈ r1, 0 < p.2) :
    (checkDuplicateStoich r1 r2 ≠ 0 →
      IsPosMultiple r1 r2 (checkDuplicateStoich r1 r2)) ∧
    (∀ c, IsPosMultiple r1 r2 c → checkDuplicateStoich r1 r2 = c) ∧
    (checkDuplicateStoich r1 r2 ≠ 0 → checkDuplicateStoich r2 r1 ≠ 0 →
      checkDuplicateStoich r1 r2 = 1 / checkDuplicateStoich r2 r1) ∧
    ((∀ p ∈ r1, p.1 ∉ keysOf r2) → checkDuplicateStoich r1 r2 = 0) := by
  refine ⟨?_, ?_, ?_, ?_⟩
  · -- a nonzero result is a valid positive scalar factor
    intro h
    obtain ⟨k0, v0, t, h1, hval, hpos, hsub1, hsub2, hall⟩ :=
      checkDuplicateStoich_ne_zero r1 r2 h
    subst h1
    rw [hval]
    refine ⟨hpos, hsub1, hsub2, ?_⟩
    intro k hk
    obtain ⟨⟨pk, pv⟩, hp, hpk⟩ := List.mem_map.mp hk
    have hpk2 : pk = k := hpk
    subst hpk2
    rw [lookup0_of_mem_nodup _ _ _ hn1 hp]
    exact hall (pk, pv) hp
  · -- a positive scalar multiple is detected and the scalar returned
    intro c hc
    obtain ⟨hcpos, hs1, hs2, hck⟩ := hc
    cases r1 with
    | nil => exact absurd rfl hne
    | cons p t =>
      obtain ⟨k0, v0⟩ := p
      have hv0 : 0 < v0 := hpos1 (k0, v0) (List.mem_cons_self _ _)
      have hk0 : lookup0 r2 k0 = c * v0 := by
        have hmem : k0 ∈ keysOf ((k0, v0) :: t) := by simp [keysOf]
        have := hck k0 hmem
        rwa [lookup0_cons_self] at this
      have hcc : lookup0 r2 k0 / v0 = c := by
        rw [hk0, mul_div_assoc, div_self (ne_of_gt hv0), mul_one]
      have hall : ∀ q ∈ (k0, v0) :: t, lookup0 r2 q.1 = c * q.2 := by
        intro q hq
        obtain ⟨qk, qv⟩ := q
        have hqk : qk ∈ keysOf ((k0, v0) :: t) := by
          unfold keysOf
          exact List.mem_map.mpr ⟨(qk, qv), hq, rfl⟩
        have := hck qk hqk
        rwa [lookup0_of_mem_nodup _ _ _ hn1 hq] at this
      rw [checkDuplicateStoich_cons, hcc, if_pos ⟨hcpos, hs1, hs2, hall⟩]
  · -- reciprocity when both orders detect a duplicate
    intro h12 h21
    obtain ⟨k0, v0, t1, e1, hval1, hpos12, _, _, hall1⟩ :=
      checkDuplicateStoich_ne_zero r1 r2 h12
    obtain ⟨l0, w0, t2, e2, hval2, hpos21, _, _, hall2⟩ :=
      checkDuplicateStoich_ne_zero r2 r1 h21
    subst e1
    have hv0ne : v0 ≠ 0 := by
      intro e
      rw [e, div_zero] at hpos12
      exact lt_irrefl 0 hpos12
    have hcne : lookup0 r2 k0 ≠ 0 := by
      intro e
      rw [e, zero_div] at hpos12
      exact lt_irrefl 0 hpos12
    have hmem2 : (k0, lookup0 r2 k0) ∈ r2 := mem_of_lookup0_ne_zero r2 k0 hcne
    have h5' := hall2 (k0, lookup0 r2 k0) hmem2
    rw [lookup0_cons_self] at h5'
    have h5 : v0 = lookup0 ((k0, v0) :: t1) l0 / w0 * lookup0 r2 k0 := h5'
    have h9 : v0 * (lookup0 r2 k0 / v0 * (lookup0 ((k0, v0) :: t1) l0 / w0)) =
        lookup0 ((k0, v0) :: t1) l0 / w0 * lookup0 r2 k0 := by
      rw [show v0 * (lookup0 r2 k0 / v0 * (lookup0 ((k0, v0) :: t1) l0 / w0)) =
          lookup0 ((k0, v0) :: t1) l0 / w0 * (lookup0 r2 k0 * v0 / v0) from by ring,
        mul_div_cancel_right₀ _ hv0ne]
    have h8 : v0 * 1 = v0 * (lookup0 r2 k0 / v0 * (lookup0 ((k0, v0) :: t1) l0 / w0)) := by
      rw [mul_one, h9]
      exact h5
    have h7 : lookup0 r2 k0 / v0 * (lookup0 ((k0, v0) :: t1) l0 / w0) = 1 :=
      (mul_left_cancel₀ hv0ne h8).symm
    rw [hval1, hval2]
    exact eq_one_div_of_mul_eq_one_left h7
  · -- disjoint key sets give zero
    intro hdis
    cases r1 with
    | nil => rfl
    | cons p t =>
      obtain ⟨k0, v0⟩ := p
      have h0 : lookup0 r2 k0 = 0 :=
        lookup0_eq_zero_of_not_mem r2 k0 (hdis (k0, v0) (List.mem_cons_self _ _))
      rw [checkDuplicateStoich_cons, h0, zero_div,
        if_neg (fun hc => absurd hc.1 (lt_irrefl 0))]

/-- C7 witness: `r2 = (1/2) · r1` for two concrete two-species stoichiometry
maps, and `checkDuplicateStoich` returns exactly 1/2. -/
theorem checkDuplicateStoich_spec_witness :
    checkDuplicateStoich [(1, 2), (-2, 4)] [(1, 1), (-2, 2)] = 1 / 2 :=
  (checkDuplicateStoich_spec [(1, 2), (-2, 4)] [(1, 1), (-2, 2)]
    (by decide) (by decide) (by norm_num)).2.1 (1 / 2)
    (by
      refine ⟨by norm_num, by decide, by decide, ?_⟩
      intro k hk
      simp only [keysOf, List.map_cons, List.map_nil, List.mem_cons,
        List.not_mem_nil, or_false] at hk
      rcases hk with rfl | rfl
      · norm_num [lookup0, List.lookup]
      · norm_num [lookup0, List.lookup, show ((-2 : ℤ) == 1) = false from rfl])

end CanteraProof
